import Mathlib

/-!
A shallow embedding of the objstore contract and its backends.

The development follows the four Go files of the repository:

* `objstore.go`   : `Options`, `Compressed`, `UseCompression`
* `mem/store.go`  : `mem.Store` (`GetPresignedURL`, `keyPath`, `Upload`, `Download`, `New`)
* `memstore/store.go` : `test.TmpStore` (same operations, no constructor)
* `s3/s3.go`      : `s3.S3` (`Upload`, `Download`)

The collaborators that live outside the repository (the Go standard library, `compress/zlib`,
`github.com/spf13/afero` and the AWS SDK) are represented by explicit interfaces, each with
a small executable instance that is documented where it is defined.
-/

namespace objstore

/-! ## Go values -/

/-- Go `[]byte`: a sequence of octets. -/
abbrev Bytes := List (Fin 256)

/-- Go `error` values, identified by the text `err.Error()` returns.  A nil error is `none`
in `Option Error`. -/
structure Error where
  msg : String
deriving DecidableEq, Repr

/-- An `io.Reader`: the bytes it will deliver and the error (other than `io.EOF`) that ends
the stream, if any. -/
structure Reader where
  data : Bytes
  err : Option Error
deriving DecidableEq, Repr

/-- Go `bytes.NewReader(b)`. -/
def bytesNewReader (b : Bytes) : Reader := ⟨b, none⟩

/-- Go `ioutil.ReadAll(r)`: returns everything the reader delivers together with its error, and
leaves the reader drained. -/
def ReadAll (r : Reader) : (Bytes × Option Error) × Reader :=
  ((r.data, r.err), ⟨[], r.err⟩)

/-- The worker of `fmt.Sprintf` for the only verb the repository uses, `%s` with string
operands.  A `%s` without an operand prints Go's `%!s(MISSING)`. -/
def sprintfChars : List Char → List String → List Char
  | '%' :: 's' :: rest, a :: args => a.data ++ sprintfChars rest args
  | '%' :: 's' :: rest, [] => "%!s(MISSING)".data ++ sprintfChars rest []
  | c :: rest, args => c :: sprintfChars rest args
  | [], _ => []

/-- Go `fmt.Sprintf(format, args...)` restricted to `%s` verbs. -/
def Sprintf (format : String) (args : List String) : String :=
  String.mk (sprintfChars format.data args)

/-- The scan behind `strings.Index`: the first position at or after `i` where `sub` starts,
or `-1`. -/
def indexFrom (sub : List Char) : List Char → Nat → Int
  | [], i => if sub = [] then (i : Int) else -1
  | c :: cs, i => if sub.isPrefixOf (c :: cs) then (i : Int) else indexFrom sub cs (i + 1)

/-- Go `strings.Index(s, substr)`.  Positions are counted in characters; the repository only
compares the result with `-1`. -/
def stringsIndex (s substr : String) : Int := indexFrom substr.data s.data 0

/-! ## objstore.go -/

/-- Go `type Options uint32`: a natural number below `2 ^ 32`. -/
abbrev Options := Nat

/-- Go `Compressed Options = 1 << (32 - 1 - iota)` with `iota = 0`. -/
def Compressed : Options := 1 <<< (32 - 1 - 0)

/-- Go `UseCompression(opts)`: `opts&Compressed != 0`. -/
def UseCompression (opts : Options) : Bool := opts &&& Compressed != 0

end objstore

open objstore

/-! ## compress/zlib -/

namespace zlib

/-- The part of `compress/zlib` the backends use, for a writer over a `bytes.Buffer` and a
reader over a byte slice.

* `Write b`: what `zWriter.Write(b)` on a new writer appends to the buffer, and its error;
* `Close b`: what `zWriter.Close()` appends to the buffer after `b` was written;
* `NewReader buf`: the error of `zlib.NewReader(bytes.NewReader(buf))` (the header check);
* `ReadAll buf`: the result of `ioutil.ReadAll(body)` on the reader opened over `buf`. -/
structure Codec where
  Write : Bytes → Bytes × Option Error
  Close : Bytes → Bytes
  NewReader : Bytes → Option Error
  ReadAll : Bytes → Bytes × Option Error

/-- Decompression inverts a completed compression: writing never fails, and the stream made
of what `Write` and then `Close` emit is accepted by `NewReader` and read back in full. -/
def Codec.Inverts (z : Codec) : Prop :=
  ∀ b : Bytes, (z.Write b).2 = none ∧ z.NewReader ((z.Write b).1 ++ z.Close b) = none ∧
    z.ReadAll ((z.Write b).1 ++ z.Close b) = (b, none)

/-- The two header bytes every zlib stream starts with (`0x78 0x9c`). -/
def header : Bytes := [120, 156]

/-- The payload of the framed codec: every octet is announced by a `1`, a `0` ends it. -/
def frames : Bytes → Bytes
  | [] => [0]
  | x :: rest => 1 :: x :: frames rest

/-- Reading the payload of the framed codec back, octet by octet. -/
def unframe : Bytes → Bytes × Option Error
  | [] => ([], some ⟨"unexpected EOF"⟩)
  | [t] => if t = 0 then ([], none) else ([], some ⟨"unexpected EOF"⟩)
  | t :: x :: rest =>
    if t = 0 then ([], none)
    else if t = 1 then (x :: (unframe rest).1, (unframe rest).2)
    else ([], some ⟨"zlib: invalid checksum"⟩)

/-- A small executable codec with the shape of `zlib.Writer` over a buffer: `Write` emits the
stream header and keeps the payload in the compressor, `Close` flushes the payload and the
end marker.  It serves as a concrete instance of `Codec`. -/
def framed : Codec where
  Write := fun _ => (header, none)
  Close := fun b => frames b
  NewReader := fun buf =>
    match buf with
    | [] => some ⟨"unexpected EOF"⟩
    | [_] => some ⟨"unexpected EOF"⟩
    | a :: b :: _ => if a = 120 ∧ b = 156 then none else some ⟨"zlib: invalid header"⟩
  ReadAll := fun buf => unframe (buf.drop 2)

end zlib

/-! ## path/filepath -/

namespace filepath

/-- The elements of a path: the pieces between separators. -/
def splitSlash : List Char → List (List Char)
  | [] => [[]]
  | c :: cs =>
    if c = '/' then [] :: splitSlash cs
    else
      match splitSlash cs with
      | [] => [[c]]
      | h :: t => (c :: h) :: t

/-- One step of the loop of `filepath.Clean` on the elements written so far (`out`, last
element first): empty and `.` elements are dropped, `..` removes the last real element,
or is kept when the path is not rooted and there is nothing to remove. -/
def cleanStep (rooted : Bool) (out : List (List Char)) (el : List Char) : List (List Char) :=
  if el = [] ∨ el = ['.'] then out
  else if el = ['.', '.'] then
    match out with
    | top :: rest => if top = ['.', '.'] then el :: out else rest
    | [] => if rooted then [] else [el]
  else el :: out

/-- Go `filepath.Clean(path)` on a system whose separator is `/`. -/
def Clean (path : String) : String :=
  let rooted : Bool := path.data.head? = some '/'
  let out := ((splitSlash path.data).foldl (cleanStep rooted) []).reverse
  let body := List.intercalate ['/'] out
  if rooted then String.mk ('/' :: body)
  else if body = [] then "." else String.mk body

/-- The directory part `path[:i+1]` of `filepath.Split`: everything up to the last `/`. -/
def splitDir (path : List Char) : List Char :=
  (path.reverse.dropWhile (fun c => c != '/')).reverse

/-- Go `filepath.Dir(path)`: the cleaned directory part. -/
def Dir (path : String) : String := Clean (String.mk (splitDir path.data))

end filepath

/-! ## github.com/spf13/afero

`afero.MemMapFs` keeps one map from names to entries.  Every name is normalized with
`filepath.Clean` before it is looked up; the root directory is in the map from the start;
directories are entries of the same map, and opening, writing and reading an entry do not
ask whether it is a directory; creating an entry creates its missing parent directories.
-/

namespace afero

/-- The operations of an `afero.Fs` value that the backends call, over a file-system state
`σ`: `fs.Mkdir(name, perm)`, `fs.Stat(name)` (only its error is used),
`afero.WriteFile(fs, name, data, perm)` and `afero.ReadFile(fs, name)`. -/
structure Fs (σ : Type) where
  Mkdir : σ → String → σ × Option Error
  Stat : σ → String → Option Error
  WriteFile : σ → String → Bytes → σ × Option Error
  ReadFile : σ → String → Option Bytes × Option Error

/-- An entry of the in-memory file system (`mem.FileData`): the directory flag and the
content. -/
structure FileData where
  dir : Bool
  data : Bytes
deriving DecidableEq, Repr

/-- The state of an `afero.MemMapFs`: its map from normalized names to entries. -/
abbrev MemMapFs := String → Option FileData

/-- Go `normalizePath`: `filepath.Clean`, with `.` and `..` sent to the root. -/
def normalizePath (path : String) : String :=
  let p := filepath.Clean path
  if p = "." then "/" else if p = ".." then "/" else p

/-- Go `afero.NewMemMapFs()`: the map holds the root directory and nothing else. -/
def NewMemMapFs : MemMapFs := fun name => if name = "/" then some ⟨true, []⟩ else none

/-- The map with `name` bound to `f`. -/
def setEntry (m : MemMapFs) (name : String) (f : FileData) : MemMapFs :=
  fun x => if x = name then some f else m x

/-- Go `registerWithParent`: the parent directory of `name` is looked up; an existing parent is
marked as a directory, a missing one is created and registered with its own parent in
turn.  The chain of parents ends at the root after at most one step per character, which
bounds the recursion (`fuel`). -/
def registerWithParent : Nat → MemMapFs → String → MemMapFs
  | 0, m, _ => m
  | fuel + 1, m, name =>
    let pdir := normalizePath (filepath.Dir name)
    match m pdir with
    | some parent => setEntry m pdir { parent with dir := true }
    | none => registerWithParent fuel (setEntry m pdir ⟨true, []⟩) pdir

/-- Go `MemMapFs.Mkdir`: fails with `mkdir name: file already exists` when the normalized name
is bound, otherwise binds it to a new directory and registers it with its parent. -/
def MemMapFs.Mkdir (m : MemMapFs) (name : String) : MemMapFs × Option Error :=
  let n := normalizePath name
  match m n with
  | some _ => (m, some ⟨"mkdir " ++ n ++ ": file already exists"⟩)
  | none => (registerWithParent (n.length + 2) (setEntry m n ⟨true, []⟩) n, none)

/-- Go `MemMapFs.Stat`: fails with `open name: file does not exist` when the normalized name
is not bound. -/
def MemMapFs.Stat (m : MemMapFs) (name : String) : Option Error :=
  let n := normalizePath name
  match m n with
  | some _ => none
  | none => some ⟨"open " ++ n ++ ": file does not exist"⟩

/-- Go `afero.WriteFile` on a `MemMapFs` (open with create and truncate, write, close): an
existing entry has its content replaced, a missing one is created with the content and
registered with its parent. -/
def MemMapFs.WriteFile (m : MemMapFs) (name : String) (data : Bytes) :
    MemMapFs × Option Error :=
  let n := normalizePath name
  match m n with
  | some f => (setEntry m n { f with data := data }, none)
  | none => (registerWithParent (n.length + 2) (setEntry m n ⟨false, data⟩) n, none)

/-- Go `afero.ReadFile` on a `MemMapFs`: the content of the entry at the normalized name. -/
def MemMapFs.ReadFile (m : MemMapFs) (name : String) : Option Bytes × Option Error :=
  let n := normalizePath name
  match m n with
  | some f => (some f.data, none)
  | none => (none, some ⟨"open " ++ n ++ ": file does not exist"⟩)

/-- The `afero.Fs` interface of `MemMapFs`. -/
def memMapFs : Fs MemMapFs := ⟨MemMapFs.Mkdir, MemMapFs.Stat, MemMapFs.WriteFile, MemMapFs.ReadFile⟩

/-- A file system that refuses every change, in the manner of `afero.NewReadOnlyFs`: its
`Mkdir` and `WriteFile` fail with `operation not permitted`. -/
def readOnlyFs : Fs MemMapFs :=
  ⟨fun m _ => (m, some ⟨"operation not permitted"⟩), MemMapFs.Stat,
   fun m _ _ => (m, some ⟨"operation not permitted"⟩), MemMapFs.ReadFile⟩

end afero

/-! ## mem/store.go -/

namespace mem

/-- Go `type Store struct { fs afero.Fs }`: the interface value and the state behind it. -/
structure Store (σ : Type) where
  fs : afero.Fs σ
  st : σ

/-- Go `Store.GetPresignedURL`: `fmt.Sprintf("https://%s/%s", bucket, key), nil`.  The store is
returned alongside the result to record that the call leaves it as it was. -/
def GetPresignedURL {σ : Type} (s : Store σ) (bucket key : String) (_expire : Int) :
    (String × Option Error) × Store σ :=
  ((Sprintf "https://%s/%s" [bucket, key], none), s)

/-- Go `keyPath`: `fmt.Sprintf("%s/%s", bucket, key)`. -/
def keyPath (bucket key : String) : String := Sprintf "%s/%s" [bucket, key]

/-- Go `Store.Upload`.  Returns the error, the store and the body reader after the call. -/
def Upload {σ : Type} (z : zlib.Codec) (s : Store σ) (body : Reader) (bucket key : String)
    (opts : Options) : Option Error × Store σ × Reader :=
  let mk := s.fs.Mkdir s.st bucket
  let s1 : Store σ := ⟨s.fs, mk.1⟩
  let early : Option Error :=
    match mk.2 with
    | some err => if stringsIndex err.msg "already exists" = -1 then some err else none
    | none => none
  match early with
  | some err => (some err, s1, body)
  | none =>
    let rd := ReadAll body
    match rd.1.2 with
    | some err => (some err, s1, rd.2)
    | none =>
      let b := rd.1.1
      if UseCompression opts then
        let w := z.Write b
        match w.2 with
        | some err => (some err, s1, rd.2)
        | none =>
          let buff := w.1 ++ z.Close b
          let wf := s.fs.WriteFile s1.st (keyPath bucket key) buff
          (wf.2, ⟨s.fs, wf.1⟩, rd.2)
      else
        let wf := s.fs.WriteFile s1.st (keyPath bucket key) b
        (wf.2, ⟨s.fs, wf.1⟩, rd.2)

/-- Go `Store.Download`; the `ctx` argument is not used by the code. -/
def Download {σ : Type} (z : zlib.Codec) (s : Store σ) (_ctx : Unit) (bucket key : String)
    (opts : Options) : Option Bytes × Option Error :=
  let fileName := keyPath bucket key
  match s.fs.Stat s.st fileName with
  | some err => (none, some err)
  | none =>
    let rf := s.fs.ReadFile s.st fileName
    match rf.2 with
    | some err => (none, some err)
    | none =>
      let buff := rf.1
      if UseCompression opts then
        match z.NewReader (buff.getD []) with
        | some err => (none, some err)
        | none => (some (z.ReadAll (buff.getD [])).1, (z.ReadAll (buff.getD [])).2)
      else (buff, none)

/-- Go `New`: a store over a new `afero.MemMapFs`. -/
def New : Store afero.MemMapFs := ⟨afero.memMapFs, afero.NewMemMapFs⟩

end mem

/-! ## memstore/store.go (package test) -/

namespace test

/-- Go `type TmpStore struct { fs afero.Fs }`: the interface value and the state behind it. -/
structure TmpStore (σ : Type) where
  fs : afero.Fs σ
  st : σ

/-- Go `TmpStore.GetPresignedURL`: `fmt.Sprintf("https://%s/%s", bucket, key), nil`.  The store is
returned alongside the result to record that the call leaves it as it was. -/
def GetPresignedURL {σ : Type} (s : TmpStore σ) (bucket key : String) (_expire : Int) :
    (String × Option Error) × TmpStore σ :=
  ((Sprintf "https://%s/%s" [bucket, key], none), s)

/-- Go `keyPath`: `fmt.Sprintf("%s/%s", bucket, key)`. -/
def keyPath (bucket key : String) : String := Sprintf "%s/%s" [bucket, key]

/-- Go `TmpStore.Upload`.  Returns the error, the store and the body reader after the call. -/
def Upload {σ : Type} (z : zlib.Codec) (s : TmpStore σ) (body : Reader) (bucket key : String)
    (opts : Options) : Option Error × TmpStore σ × Reader :=
  let mk := s.fs.Mkdir s.st bucket
  let s1 : TmpStore σ := ⟨s.fs, mk.1⟩
  let early : Option Error :=
    match mk.2 with
    | some err => if stringsIndex err.msg "already exists" = -1 then some err else none
    | none => none
  match early with
  | some err => (some err, s1, body)
  | none =>
    let rd := ReadAll body
    match rd.1.2 with
    | some err => (some err, s1, rd.2)
    | none =>
      let b := rd.1.1
      if UseCompression opts then
        let w := z.Write b
        match w.2 with
        | some err => (some err, s1, rd.2)
        | none =>
          let buff := w.1 ++ z.Close b
          let wf := s.fs.WriteFile s1.st (keyPath bucket key) buff
          (wf.2, ⟨s.fs, wf.1⟩, rd.2)
      else
        let wf := s.fs.WriteFile s1.st (keyPath bucket key) b
        (wf.2, ⟨s.fs, wf.1⟩, rd.2)

/-- Go `TmpStore.Download`. -/
def Download {σ : Type} (z : zlib.Codec) (s : TmpStore σ) (bucket key : String)
    (opts : Options) : Option Bytes × Option Error :=
  let fileName := keyPath bucket key
  match s.fs.Stat s.st fileName with
  | some err => (none, some err)
  | none =>
    let rf := s.fs.ReadFile s.st fileName
    match rf.2 with
    | some err => (none, some err)
    | none =>
      let buff := rf.1
      if UseCompression opts then
        match z.NewReader (buff.getD []) with
        | some err => (none, some err)
        | none => (some (z.ReadAll (buff.getD [])).1, (z.ReadAll (buff.getD [])).2)
      else (buff, none)

/-- Modelled from the spec: the constructor of `TmpStore` is not among the source files.
The spec (4.4) describes both in-memory backends as structurally identical, each over a
private in-process virtual file hierarchy, so a new `TmpStore` is taken to hold a new
`afero.MemMapFs`, as `mem.New` does. -/
def fresh : TmpStore afero.MemMapFs := ⟨afero.memMapFs, afero.NewMemMapFs⟩

end test

/-! ## s3/s3.go -/

namespace s3

/-- The AWS SDK as the backend uses it, over a service state `σ`:
`s3manager.Uploader.Upload` with the given bucket, key and body (it returns the new state,
its error and the body reader after the call) and `s3manager.Downloader.DownloadWithContext`
(it returns what the `aws.WriteAtBuffer` holds after the call and the error). -/
structure Client (σ : Type) where
  Upload : σ → String → String → Reader → σ × Option Error × Reader
  DownloadWithContext : σ → String → String → Bytes × Option Error

/-- Go `type S3 struct { client *s3.S3 }`: the client and the service state behind it. -/
structure S3 (σ : Type) where
  client : Client σ
  st : σ

/-- Go `S3.Upload`.  Returns the error, the backend and the caller's body reader after the
call.  `defer zWriter.Close()` runs when `Upload` returns, that is after
`bytes.NewReader(buff.Bytes())` was taken and after `uploader.Upload` has returned; what
`Close` appends to `buff` is `buffAtReturn`, which nothing reads. -/
def Upload {σ : Type} (z : zlib.Codec) (s : S3 σ) (body : Reader) (bucket key : String)
    (opts : Options) : Option Error × S3 σ × Reader :=
  if bucket = "" then (some ⟨"bucket name cannot be empty"⟩, s, body)
  else if key = "" then (some ⟨"key name cannot be empty"⟩, s, body)
  else if UseCompression opts then
    let rd := ReadAll body
    match rd.1.2 with
    | some err => (some err, s, rd.2)
    | none =>
      let b := rd.1.1
      let w := z.Write b
      match w.2 with
      | some err => (some err, s, rd.2)
      | none =>
        let buff := w.1
        let body1 := bytesNewReader buff
        let up := s.client.Upload s.st bucket key body1
        let _buffAtReturn := buff ++ z.Close b
        (up.2.1, ⟨s.client, up.1⟩, rd.2)
  else
    let up := s.client.Upload s.st bucket key body
    (up.2.1, ⟨s.client, up.1⟩, up.2.2)

/-- Go `S3.Download`.  The two-minute context bounds the transfer in real time and does not
enter the result otherwise.  Inside the `if`, `err` is the error of `zlib.NewReader`, a new
variable; the transfer error is only returned on the last line. -/
def Download {σ : Type} (z : zlib.Codec) (s : S3 σ) (bucket key : String) (opts : Options) :
    Option Bytes × Option Error :=
  let dl := s.client.DownloadWithContext s.st bucket key
  let buff := dl.1
  let err := dl.2
  if UseCompression opts then
    match z.NewReader buff with
    | some err1 => (none, some err1)
    | none => (some (z.ReadAll buff).1, (z.ReadAll buff).2)
  else (some buff, err)

/-- A service that returns exactly the bytes it was given: its state maps (bucket, key) to
the stored bytes.  An upload reads the whole body and stores it unless the body fails;
a download of an absent key fails with `NoSuchKey` and an empty buffer. -/
def echo : Client (String × String → Option Bytes) where
  Upload := fun st bucket key body =>
    match (ReadAll body).1.2 with
    | some err => (st, some err, (ReadAll body).2)
    | none =>
      (fun p => if p = (bucket, key) then some (ReadAll body).1.1 else st p, none,
        (ReadAll body).2)
  DownloadWithContext := fun st bucket key =>
    match st (bucket, key) with
    | some b => (b, none)
    | none => ([], some ⟨"NoSuchKey: The specified key does not exist."⟩)

/-- A service whose every transfer fails with `e`, leaving `leftover` in the download
buffer. -/
def failing (e : Error) (leftover : Bytes) : Client Unit where
  Upload := fun st _ _ body => (st, some e, body)
  DownloadWithContext := fun _ _ _ => (leftover, some e)

end s3

/-- The bytes of an ASCII text. -/
def ascii (s : String) : Bytes := s.data.map (fun c => Fin.ofNat c.toNat)

/-- The entry bound to `x` in `m` has content `d`. -/
def afero.Holds (m : afero.MemMapFs) (x : String) (d : Bytes) : Prop :=
  ∃ f, m x = some f ∧ f.data = d

/-- What an in-memory `Upload` of `B` stores: `B` itself, or the complete compressed stream
when compression is asked for. -/
def stored (z : zlib.Codec) (B : Bytes) (opts : Options) : Bytes :=
  if UseCompression opts then (z.Write B).1 ++ z.Close B else B

/-! ## Auxiliary facts -/

section Aux

theorem mem_keyPath_eq (bucket key : String) : mem.keyPath bucket key = bucket ++ "/" ++ key := by
  apply String.ext
  simp [mem.keyPath, Sprintf, sprintfChars]

theorem test_keyPath_eq (bucket key : String) :
    test.keyPath bucket key = mem.keyPath bucket key := rfl

theorem indexFrom_ge (sub post : List Char) :
    ∀ (pre : List Char) (i : Nat), (i : Int) ≤ indexFrom sub (pre ++ sub ++ post) i := by
  intro pre
  induction pre with
  | nil =>
    intro i
    cases hl : sub ++ post with
    | nil =>
      obtain ⟨hs, hq⟩ := List.append_eq_nil.mp hl
      subst hs
      subst hq
      simp [indexFrom]
    | cons c cs =>
      have hp : sub.isPrefixOf (c :: cs) = true := by
        rw [← hl]; exact List.isPrefixOf_iff_prefix.mpr (List.prefix_append sub post)
      simp [hl, indexFrom, hp]
  | cons p ps ih =>
    intro i
    have h1 := ih (i + 1)
    show (i : Int) ≤ indexFrom sub (p :: (ps ++ sub ++ post)) i
    simp only [indexFrom]
    split
    · exact le_refl _
    · push_cast at h1
      omega

theorem exists_msg_index (n : String) :
    stringsIndex ("mkdir " ++ n ++ ": file already exists") "already exists" ≠ -1 := by
  have hd : ("mkdir " ++ n ++ ": file already exists").data
      = ("mkdir ".data ++ n.data ++ ": file ".data) ++ "already exists".data ++ [] := by
    simp [String.data_append]
  have := indexFrom_ge "already exists".data [] ("mkdir ".data ++ n.data ++ ": file ".data) 0
  unfold stringsIndex
  rw [hd]
  intro h
  rw [h] at this
  simp at this

theorem registerWithParent_holds (x : String) (d : Bytes) :
    ∀ (fuel : Nat) (m : afero.MemMapFs) (name : String),
      afero.Holds m x d → afero.Holds (afero.registerWithParent fuel m name) x d := by
  intro fuel
  induction fuel with
  | zero => intro m name h; exact h
  | succ k ih =>
    intro m name h
    obtain ⟨f, hf, hd⟩ := h
    simp only [afero.registerWithParent]
    split
    · rename_i parent hp
      by_cases hx : x = afero.normalizePath (filepath.Dir name)
      · refine ⟨{ parent with dir := true }, by simp [afero.setEntry, hx], ?_⟩
        rw [← hx, hf] at hp
        cases hp
        exact hd
      · exact ⟨f, by simp [afero.setEntry, hx, hf], hd⟩
    · rename_i hp
      apply ih
      have hx : x ≠ afero.normalizePath (filepath.Dir name) := by
        intro hx; rw [← hx, hf] at hp; cases hp
      exact ⟨f, by simp [afero.setEntry, hx, hf], hd⟩

theorem Mkdir_holds (m : afero.MemMapFs) (name x : String) (d : Bytes)
    (h : afero.Holds m x d) : afero.Holds (afero.MemMapFs.Mkdir m name).1 x d := by
  simp only [afero.MemMapFs.Mkdir]
  split
  · exact h
  · rename_i hn
    apply registerWithParent_holds
    obtain ⟨f, hf, hd⟩ := h
    have hx : x ≠ afero.normalizePath name := by
      intro hx; rw [← hx, hf] at hn; cases hn
    exact ⟨f, by simp [afero.setEntry, hx, hf], hd⟩

theorem Mkdir_bound (m : afero.MemMapFs) (name : String) :
    ∃ f, (afero.MemMapFs.Mkdir m name).1 (afero.normalizePath name) = some f := by
  simp only [afero.MemMapFs.Mkdir]
  split
  · rename_i f hf; exact ⟨f, hf⟩
  · obtain ⟨f, hf, _⟩ := registerWithParent_holds (afero.normalizePath name) []
      ((afero.normalizePath name).length + 2)
      (afero.setEntry m (afero.normalizePath name) ⟨true, []⟩) (afero.normalizePath name)
      ⟨⟨true, []⟩, by simp [afero.setEntry], rfl⟩
    exact ⟨f, hf⟩

theorem Mkdir_error (m : afero.MemMapFs) (name : String) :
    (afero.MemMapFs.Mkdir m name).2 = none ∨
      (afero.MemMapFs.Mkdir m name).2
        = some ⟨"mkdir " ++ afero.normalizePath name ++ ": file already exists"⟩ := by
  simp only [afero.MemMapFs.Mkdir]
  split
  · exact Or.inr rfl
  · exact Or.inl rfl

theorem WriteFile_error (m : afero.MemMapFs) (name : String) (b : Bytes) :
    (afero.MemMapFs.WriteFile m name b).2 = none := by
  simp only [afero.MemMapFs.WriteFile]
  split <;> rfl

theorem WriteFile_self (m : afero.MemMapFs) (name : String) (b : Bytes) :
    afero.Holds (afero.MemMapFs.WriteFile m name b).1 (afero.normalizePath name) b := by
  simp only [afero.MemMapFs.WriteFile]
  split
  · rename_i f hf
    exact ⟨{ f with data := b }, by simp [afero.setEntry], rfl⟩
  · apply registerWithParent_holds
    exact ⟨⟨false, b⟩, by simp [afero.setEntry], rfl⟩

theorem WriteFile_holds (m : afero.MemMapFs) (name x : String) (b d : Bytes)
    (hx : x ≠ afero.normalizePath name) (h : afero.Holds m x d) :
    afero.Holds (afero.MemMapFs.WriteFile m name b).1 x d := by
  obtain ⟨f, hf, hd⟩ := h
  simp only [afero.MemMapFs.WriteFile]
  split
  · exact ⟨f, by simp [afero.setEntry, hx, hf], hd⟩
  · apply registerWithParent_holds
    exact ⟨f, by simp [afero.setEntry, hx, hf], hd⟩

theorem Mkdir_not_early (m : afero.MemMapFs) (bucket : String) :
    (match (afero.MemMapFs.Mkdir m bucket).2 with
      | some err => if stringsIndex err.msg "already exists" = -1 then some err else none
      | none => none) = none := by
  rcases Mkdir_error m bucket with h | h
  · rw [h]
  · rw [h]
    simp [exists_msg_index]

theorem mem_Upload_spec (z : zlib.Codec) (m : afero.MemMapFs) (B : Bytes)
    (bucket key : String) (opts : Options)
    (hw : UseCompression opts = true → (z.Write B).2 = none) :
    ∃ m1, mem.Upload z ⟨afero.memMapFs, m⟩ (bytesNewReader B) bucket key opts
        = (none, ⟨afero.memMapFs, m1⟩, ⟨[], none⟩) ∧
      afero.Holds m1 (afero.normalizePath (mem.keyPath bucket key)) (stored z B opts) ∧
      (∀ x d, x ≠ afero.normalizePath (mem.keyPath bucket key) →
        afero.Holds m x d → afero.Holds m1 x d) ∧
      (∃ f, m1 (afero.normalizePath bucket) = some f) := by
  have frame : ∀ (b : Bytes),
      afero.Holds (afero.MemMapFs.WriteFile (afero.MemMapFs.Mkdir m bucket).1
          (mem.keyPath bucket key) b).1 (afero.normalizePath (mem.keyPath bucket key)) b ∧
      (∀ x d, x ≠ afero.normalizePath (mem.keyPath bucket key) →
        afero.Holds m x d → afero.Holds (afero.MemMapFs.WriteFile
          (afero.MemMapFs.Mkdir m bucket).1 (mem.keyPath bucket key) b).1 x d) ∧
      (∃ f, (afero.MemMapFs.WriteFile (afero.MemMapFs.Mkdir m bucket).1
          (mem.keyPath bucket key) b).1 (afero.normalizePath bucket) = some f) := by
    intro b
    refine ⟨WriteFile_self _ _ _, ?_, ?_⟩
    · intro x d hx h
      exact WriteFile_holds _ _ _ _ _ hx (Mkdir_holds _ _ _ _ h)
    · obtain ⟨f, hf⟩ := Mkdir_bound m bucket
      by_cases hx : afero.normalizePath bucket = afero.normalizePath (mem.keyPath bucket key)
      · obtain ⟨g, hg, _⟩ := WriteFile_self (afero.MemMapFs.Mkdir m bucket).1
          (mem.keyPath bucket key) b
        exact ⟨g, by rw [hx]; exact hg⟩
      · obtain ⟨g, hg, _⟩ := WriteFile_holds (afero.MemMapFs.Mkdir m bucket).1
          (mem.keyPath bucket key) (afero.normalizePath bucket) b f.data hx ⟨f, hf, rfl⟩
        exact ⟨g, hg⟩
  by_cases hc : UseCompression opts = true
  · refine ⟨(afero.MemMapFs.WriteFile (afero.MemMapFs.Mkdir m bucket).1
      (mem.keyPath bucket key) ((z.Write B).1 ++ z.Close B)).1, ?_, ?_⟩
    · simp [mem.Upload, afero.memMapFs, Mkdir_not_early, ReadAll, bytesNewReader, hc, hw hc,
        WriteFile_error]
    · have := frame ((z.Write B).1 ++ z.Close B)
      simpa [stored, hc] using this
  · refine ⟨(afero.MemMapFs.WriteFile (afero.MemMapFs.Mkdir m bucket).1
      (mem.keyPath bucket key) B).1, ?_, ?_⟩
    · simp [mem.Upload, afero.memMapFs, Mkdir_not_early, ReadAll, bytesNewReader, hc,
        WriteFile_error]
    · have := frame B
      simpa [stored, hc] using this

theorem mem_Download_spec (z : zlib.Codec) (m : afero.MemMapFs) (bucket key : String)
    (opts : Options) (d : Bytes)
    (h : afero.Holds m (afero.normalizePath (mem.keyPath bucket key)) d) :
    mem.Download z ⟨afero.memMapFs, m⟩ () bucket key opts =
      if UseCompression opts then
        match z.NewReader d with
        | some err => (none, some err)
        | none => (some (z.ReadAll d).1, (z.ReadAll d).2)
      else (some d, none) := by
  obtain ⟨f, hf, hd⟩ := h
  subst hd
  simp [mem.Download, afero.memMapFs, afero.MemMapFs.Stat, afero.MemMapFs.ReadFile, hf]

theorem test_Download_eq {σ : Type} (z : zlib.Codec) (fs : afero.Fs σ) (st : σ)
    (bucket key : String) (opts : Options) :
    test.Download z ⟨fs, st⟩ bucket key opts = mem.Download z ⟨fs, st⟩ () bucket key opts := by
  simp only [test.Download, mem.Download, test.keyPath, mem.keyPath]

theorem test_Upload_eq {σ : Type} (z : zlib.Codec) (fs : afero.Fs σ) (st : σ) (body : Reader)
    (bucket key : String) (opts : Options) :
    test.Upload z ⟨fs, st⟩ body bucket key opts =
      ((mem.Upload z ⟨fs, st⟩ body bucket key opts).1,
        ⟨(mem.Upload z ⟨fs, st⟩ body bucket key opts).2.1.fs,
          (mem.Upload z ⟨fs, st⟩ body bucket key opts).2.1.st⟩,
        (mem.Upload z ⟨fs, st⟩ body bucket key opts).2.2) := by
  simp only [test.Upload, mem.Upload, test.keyPath, mem.keyPath]
  repeat (split <;> try rfl)

theorem test_Upload_spec (z : zlib.Codec) (m : afero.MemMapFs) (B : Bytes)
    (bucket key : String) (opts : Options)
    (hw : UseCompression opts = true → (z.Write B).2 = none) :
    ∃ m1, test.Upload z ⟨afero.memMapFs, m⟩ (bytesNewReader B) bucket key opts
        = (none, ⟨afero.memMapFs, m1⟩, ⟨[], none⟩) ∧
      afero.Holds m1 (afero.normalizePath (mem.keyPath bucket key)) (stored z B opts) ∧
      (∀ x d, x ≠ afero.normalizePath (mem.keyPath bucket key) →
        afero.Holds m x d → afero.Holds m1 x d) ∧
      (∃ f, m1 (afero.normalizePath bucket) = some f) := by
  obtain ⟨m1, hu, h⟩ := mem_Upload_spec z m B bucket key opts hw
  exact ⟨m1, by rw [test_Upload_eq, hu], h⟩

theorem test_Download_spec (z : zlib.Codec) (m : afero.MemMapFs) (bucket key : String)
    (opts : Options) (d : Bytes)
    (h : afero.Holds m (afero.normalizePath (mem.keyPath bucket key)) d) :
    test.Download z ⟨afero.memMapFs, m⟩ bucket key opts =
      if UseCompression opts then
        match z.NewReader d with
        | some err => (none, some err)
        | none => (some (z.ReadAll d).1, (z.ReadAll d).2)
      else (some d, none) := by
  rw [test_Download_eq]
  exact mem_Download_spec z m bucket key opts d h

theorem unframe_frames (b : Bytes) : zlib.unframe (zlib.frames b) = (b, none) := by
  induction b with
  | nil => simp [zlib.frames, zlib.unframe]
  | cons x rest ih => simp [zlib.frames, zlib.unframe, ih]

theorem framed_inverts : zlib.framed.Inverts := by
  intro b
  refine ⟨rfl, ?_, ?_⟩
  · simp [zlib.framed, zlib.header]
  · simp [zlib.framed, zlib.header, unframe_frames]

theorem UseCompression_iff (opts : Options) :
    UseCompression opts = true ↔ opts.testBit 31 = true := by
  have hC : Compressed = 2 ^ 31 := by decide
  unfold UseCompression
  rw [hC]
  constructor
  · intro h
    have hne : opts &&& 2 ^ 31 ≠ 0 := by simpa using h
    obtain ⟨i, hi⟩ := Nat.ne_zero_implies_bit_true hne
    rw [Nat.testBit_and, Nat.testBit_two_pow] at hi
    simp only [Bool.and_eq_true, decide_eq_true_eq] at hi
    rw [hi.2]
    exact hi.1
  · intro h
    have : (opts &&& 2 ^ 31).testBit 31 = true := by
      rw [Nat.testBit_and, h, Nat.testBit_two_pow_self]; rfl
    have hne : opts &&& 2 ^ 31 ≠ 0 := by
      intro h0; rw [h0, Nat.zero_testBit] at this; cases this
    simpa using hne

end Aux

/-! ## The claims -/

/-- C1. In-memory round trip: on a new store of either in-memory backend, for every byte
sequence, bucket and key and for `opts` equal to `0` or `Compressed`, `Upload` returns no
error and a following `Download` with the same `opts` returns the uploaded bytes and no
error, for every codec whose decompression inverts a completed compression. -/
theorem inmem_upload_download_roundtrip (z : zlib.Codec) (hz : z.Inverts) (B : Bytes)
    (bucket key : String) (opts : Options) (ho : opts = 0 ∨ opts = Compressed) :
    ((mem.Upload z mem.New (bytesNewReader B) bucket key opts).1 = none ∧
      mem.Download z (mem.Upload z mem.New (bytesNewReader B) bucket key opts).2.1 ()
        bucket key opts = (some B, none)) ∧
    ((test.Upload z test.fresh (bytesNewReader B) bucket key opts).1 = none ∧
      test.Download z (test.Upload z test.fresh (bytesNewReader B) bucket key opts).2.1
        bucket key opts = (some B, none)) := by
  obtain ⟨m1, hu, hh, -, -⟩ := mem_Upload_spec z afero.NewMemMapFs B bucket key opts
    (fun _ => (hz B).1)
  have hd := mem_Download_spec z m1 bucket key opts _ hh
  have hres : mem.Download z ⟨afero.memMapFs, m1⟩ () bucket key opts = (some B, none) := by
    rw [hd]
    rcases ho with ho | ho
    · subst ho
      have h0 : UseCompression 0 = false := by decide
      simp [stored, h0]
    · subst ho
      have h1 : UseCompression Compressed = true := by decide
      simp [stored, h1, (hz B).2.1, (hz B).2.2]
  refine ⟨?_, ?_⟩
  · show (mem.Upload z ⟨afero.memMapFs, afero.NewMemMapFs⟩ _ _ _ _).1 = none ∧ _
    simp only [mem.New]
    rw [hu]
    exact ⟨rfl, hres⟩
  · simp only [test.fresh]
    rw [test_Upload_eq, hu, test_Download_eq]
    exact ⟨rfl, hres⟩

/-- Witness of C1: the text `hello`, bucket `t`, key `a/b.txt`, compressed with the
framed codec. -/
theorem inmem_upload_download_roundtrip_witness :
    ((mem.Upload zlib.framed mem.New (bytesNewReader (ascii "hello")) "t" "a/b.txt"
        Compressed).1 = none ∧
      mem.Download zlib.framed (mem.Upload zlib.framed mem.New (bytesNewReader (ascii "hello"))
        "t" "a/b.txt" Compressed).2.1 () "t" "a/b.txt" Compressed
        = (some (ascii "hello"), none)) ∧
    ((test.Upload zlib.framed test.fresh (bytesNewReader (ascii "hello")) "t" "a/b.txt"
        Compressed).1 = none ∧
      test.Download zlib.framed (test.Upload zlib.framed test.fresh
        (bytesNewReader (ascii "hello")) "t" "a/b.txt" Compressed).2.1 "t" "a/b.txt" Compressed
        = (some (ascii "hello"), none)) :=
  inmem_upload_download_roundtrip zlib.framed framed_inverts (ascii "hello") "t" "a/b.txt"
    Compressed (Or.inr rfl)

/-- C7. Replace semantics: on either in-memory backend, in any state of its file system, for
all byte sequences `B1` and `B2` and every bucket and key, uploading `B1` and then `B2` to
the same bucket and key without options and downloading without options returns exactly
`B2`, with no error. -/
theorem inmem_upload_replaces (z : zlib.Codec) (m : afero.MemMapFs) (B1 B2 : Bytes)
    (bucket key : String) :
    mem.Download z
        (mem.Upload z (mem.Upload z ⟨afero.memMapFs, m⟩ (bytesNewReader B1) bucket key 0).2.1
          (bytesNewReader B2) bucket key 0).2.1 () bucket key 0 = (some B2, none) ∧
    test.Download z
        (test.Upload z (test.Upload z ⟨afero.memMapFs, m⟩ (bytesNewReader B1) bucket key 0).2.1
          (bytesNewReader B2) bucket key 0).2.1 bucket key 0 = (some B2, none) := by
  have h0 : UseCompression 0 = false := by decide
  obtain ⟨m1, hu1, -, -, -⟩ := mem_Upload_spec z m B1 bucket key 0 (by simp [h0])
  obtain ⟨m2, hu2, hh2, -, -⟩ := mem_Upload_spec z m1 B2 bucket key 0 (by simp [h0])
  obtain ⟨t1, ht1, -, -, -⟩ := test_Upload_spec z m B1 bucket key 0 (by simp [h0])
  obtain ⟨t2, ht2, hg2, -, -⟩ := test_Upload_spec z t1 B2 bucket key 0 (by simp [h0])
  have hd := mem_Download_spec z m2 bucket key 0 _ hh2
  have ht := test_Download_spec z t2 bucket key 0 _ hg2
  simp [stored, h0] at hd ht
  refine ⟨?_, ?_⟩
  · rw [hu1]
    show mem.Download z (mem.Upload z ⟨afero.memMapFs, m1⟩ _ _ _ _).2.1 () _ _ _ = _
    rw [hu2]
    exact hd
  · rw [ht1]
    show test.Download z (test.Upload z ⟨afero.memMapFs, t1⟩ _ _ _ _).2.1 _ _ _ = _
    rw [ht2]
    exact ht

/-- C8. Options bit layout: `Compressed` is `2 ^ 31`; `UseCompression opts` holds exactly
when bit 31 of `opts` is set; it is false at `0`, true at `Compressed`, and two values that
agree on bit 31 get the same answer whatever their other bits are. -/
theorem options_bit_layout :
    Compressed = 2 ^ 31 ∧
    (∀ opts : Options, UseCompression opts = true ↔ opts.testBit 31 = true) ∧
    UseCompression 0 = false ∧ UseCompression Compressed = true ∧
    (∀ a b : Options, a.testBit 31 = b.testBit 31 → UseCompression a = UseCompression b) := by
  refine ⟨by decide, UseCompression_iff, by decide, by decide, ?_⟩
  intro a b h
  have ha := UseCompression_iff a
  have hb := UseCompression_iff b
  rw [h] at ha
  cases hA : UseCompression a <;> cases hB : UseCompression b <;> simp_all

/-- C10. Presigned URL shape: on either in-memory backend, for every store state, bucket,
key and expiry, `GetPresignedURL` returns the text `https://` followed by the bucket, a
`/` and the key, with no error, and the store is left as it was; bucket `b` and key `k`
with an expiry of one hour give `https://b/k` on a new store. -/
theorem inmem_presigned_url_shape {σ : Type} (s : mem.Store σ) (t : test.TmpStore σ)
    (bucket key : String) (expire : Int) :
    mem.GetPresignedURL s bucket key expire = (("https://" ++ bucket ++ "/" ++ key, none), s) ∧
    test.GetPresignedURL t bucket key expire
      = (("https://" ++ bucket ++ "/" ++ key, none), t) ∧
    (mem.GetPresignedURL mem.New "b" "k" 3600000000000).1 = ("https://b/k", none) ∧
    (test.GetPresignedURL test.fresh "b" "k" 3600000000000).1 = ("https://b/k", none) := by
  have key_eq : Sprintf "https://%s/%s" [bucket, key] = "https://" ++ bucket ++ "/" ++ key := by
    apply String.ext
    simp [Sprintf, sprintfChars]
  refine ⟨?_, ?_, by decide, by decide⟩
  · simp only [mem.GetPresignedURL, key_eq]
  · simp only [test.GetPresignedURL, key_eq]

/-- C9. Bucket idempotency: on either in-memory backend, in any state of its file system
and for every bucket, keys and bodies, two sequential uploads to the bucket both return
no error, and the `Mkdir` of the second call fails with a message that contains
`already exists`, which `Upload` swallows.  For any file system whose `Mkdir` fails with
an error `e` whose message does not contain `already exists`, `Upload` returns `e` with the
body unread and the file system as `Mkdir` left it (no file written). -/
theorem inmem_bucket_idempotent {σ : Type} (z : zlib.Codec)
    (hz : ∀ b, (z.Write b).2 = none) (m : afero.MemMapFs) (B1 B2 : Bytes)
    (bucket k1 k2 : String) (opts : Options)
    (fs : afero.Fs σ) (st st1 : σ) (body : Reader) (key : String) (e : Error)
    (hmk : fs.Mkdir st bucket = (st1, some e))
    (hidx : stringsIndex e.msg "already exists" = -1) :
    ((mem.Upload z ⟨afero.memMapFs, m⟩ (bytesNewReader B1) bucket k1 opts).1 = none ∧
      (∃ msg, (afero.memMapFs.Mkdir
          (mem.Upload z ⟨afero.memMapFs, m⟩ (bytesNewReader B1) bucket k1 opts).2.1.st
          bucket).2 = some ⟨msg⟩ ∧ stringsIndex msg "already exists" ≠ -1) ∧
      (mem.Upload z (mem.Upload z ⟨afero.memMapFs, m⟩ (bytesNewReader B1) bucket k1 opts).2.1
        (bytesNewReader B2) bucket k2 opts).1 = none) ∧
    ((test.Upload z ⟨afero.memMapFs, m⟩ (bytesNewReader B1) bucket k1 opts).1 = none ∧
      (∃ msg, (afero.memMapFs.Mkdir
          (test.Upload z ⟨afero.memMapFs, m⟩ (bytesNewReader B1) bucket k1 opts).2.1.st
          bucket).2 = some ⟨msg⟩ ∧ stringsIndex msg "already exists" ≠ -1) ∧
      (test.Upload z (test.Upload z ⟨afero.memMapFs, m⟩ (bytesNewReader B1) bucket k1 opts).2.1
        (bytesNewReader B2) bucket k2 opts).1 = none) ∧
    mem.Upload z ⟨fs, st⟩ body bucket key opts = (some e, ⟨fs, st1⟩, body) ∧
    test.Upload z ⟨fs, st⟩ body bucket key opts = (some e, ⟨fs, st1⟩, body) := by
  have second : ∀ m1 : afero.MemMapFs, (∃ f, m1 (afero.normalizePath bucket) = some f) →
      ∃ msg, (afero.memMapFs.Mkdir m1 bucket).2 = some ⟨msg⟩ ∧
        stringsIndex msg "already exists" ≠ -1 := by
    intro m1 hb
    obtain ⟨f, hf⟩ := hb
    refine ⟨"mkdir " ++ afero.normalizePath bucket ++ ": file already exists", ?_,
      exists_msg_index _⟩
    simp [afero.memMapFs, afero.MemMapFs.Mkdir, hf]
  obtain ⟨m1, hu1, -, -, hb1⟩ := mem_Upload_spec z m B1 bucket k1 opts (fun _ => hz B1)
  obtain ⟨m2, hu2, -, -, -⟩ := mem_Upload_spec z m1 B2 bucket k2 opts (fun _ => hz B2)
  obtain ⟨t1, ht1, -, -, hc1⟩ := test_Upload_spec z m B1 bucket k1 opts (fun _ => hz B1)
  obtain ⟨t2, ht2, -, -, -⟩ := test_Upload_spec z t1 B2 bucket k2 opts (fun _ => hz B2)
  refine ⟨?_, ?_, ?_, ?_⟩
  · rw [hu1]
    refine ⟨rfl, second m1 hb1, ?_⟩
    show (mem.Upload z ⟨afero.memMapFs, m1⟩ _ _ _ _).1 = none
    rw [hu2]
  · rw [ht1]
    refine ⟨rfl, second t1 hc1, ?_⟩
    show (test.Upload z ⟨afero.memMapFs, t1⟩ _ _ _ _).1 = none
    rw [ht2]
  · simp [mem.Upload, hmk, hidx]
  · simp [test.Upload, hmk, hidx]

/-- Witness of C9: two uploads to bucket `t` of a new in-memory file system, and an upload
to a read-only file system, whose `Mkdir` fails with `operation not permitted`. -/
theorem inmem_bucket_idempotent_witness :
    ((mem.Upload zlib.framed ⟨afero.memMapFs, afero.NewMemMapFs⟩ (bytesNewReader (ascii "one"))
        "t" "a" Compressed).1 = none ∧
      (∃ msg, (afero.memMapFs.Mkdir
          (mem.Upload zlib.framed ⟨afero.memMapFs, afero.NewMemMapFs⟩
            (bytesNewReader (ascii "one")) "t" "a" Compressed).2.1.st "t").2 = some ⟨msg⟩ ∧
        stringsIndex msg "already exists" ≠ -1) ∧
      (mem.Upload zlib.framed (mem.Upload zlib.framed ⟨afero.memMapFs, afero.NewMemMapFs⟩
          (bytesNewReader (ascii "one")) "t" "a" Compressed).2.1
        (bytesNewReader (ascii "two")) "t" "b" Compressed).1 = none) ∧
    ((test.Upload zlib.framed ⟨afero.memMapFs, afero.NewMemMapFs⟩
        (bytesNewReader (ascii "one")) "t" "a" Compressed).1 = none ∧
      (∃ msg, (afero.memMapFs.Mkdir
          (test.Upload zlib.framed ⟨afero.memMapFs, afero.NewMemMapFs⟩
            (bytesNewReader (ascii "one")) "t" "a" Compressed).2.1.st "t").2 = some ⟨msg⟩ ∧
        stringsIndex msg "already exists" ≠ -1) ∧
      (test.Upload zlib.framed (test.Upload zlib.framed ⟨afero.memMapFs, afero.NewMemMapFs⟩
          (bytesNewReader (ascii "one")) "t" "a" Compressed).2.1
        (bytesNewReader (ascii "two")) "t" "b" Compressed).1 = none) ∧
    mem.Upload zlib.framed ⟨afero.readOnlyFs, afero.NewMemMapFs⟩ (bytesNewReader (ascii "one"))
        "t" "a" Compressed
      = (some ⟨"operation not permitted"⟩, ⟨afero.readOnlyFs, afero.NewMemMapFs⟩,
          bytesNewReader (ascii "one")) ∧
    test.Upload zlib.framed ⟨afero.readOnlyFs, afero.NewMemMapFs⟩ (bytesNewReader (ascii "one"))
        "t" "a" Compressed
      = (some ⟨"operation not permitted"⟩, ⟨afero.readOnlyFs, afero.NewMemMapFs⟩,
          bytesNewReader (ascii "one")) :=
  inmem_bucket_idempotent zlib.framed (fun _ => rfl) afero.NewMemMapFs (ascii "one")
    (ascii "two") "t" "a" "b" Compressed afero.readOnlyFs afero.NewMemMapFs afero.NewMemMapFs
    (bytesNewReader (ascii "one")) "a" ⟨"operation not permitted"⟩ rfl (by decide)

/-- What `S3.Upload` with compression hands to the uploader, for every codec: the bytes
that `Write` alone emitted.  What `Close` emits is not part of the stored object. -/
theorem s3_upload_compressed_object (z : zlib.Codec) (st : String × String → Option Bytes)
    (B : Bytes) (bucket key : String) (hb : bucket ≠ "") (hk : key ≠ "")
    (hw : (z.Write B).2 = none) :
    (s3.Upload z ⟨s3.echo, st⟩ (bytesNewReader B) bucket key Compressed).1 = none ∧
    (s3.Upload z ⟨s3.echo, st⟩ (bytesNewReader B) bucket key Compressed).2.1.st (bucket, key)
      = some (z.Write B).1 := by
  have h1 : UseCompression Compressed = true := by decide
  simp [s3.Upload, hb, hk, h1, ReadAll, bytesNewReader, hw, s3.echo]

/-- C2 (the code departs from the claim). `S3.Upload` of the text `hello` to bucket `t`,
key `k`, with `Compressed`, on the echo service and with the framed codec: the upload
returns no error, the stored object is the stream header alone, which is not the complete
compressed encoding, and `S3.Download` with `Compressed` returns an `unexpected EOF`
error and no byte of the text. -/
theorem s3_compressed_roundtrip_fails :
    (s3.Upload zlib.framed ⟨s3.echo, fun _ => none⟩ (bytesNewReader (ascii "hello")) "t" "k"
      Compressed).1 = none ∧
    (s3.Upload zlib.framed ⟨s3.echo, fun _ => none⟩ (bytesNewReader (ascii "hello")) "t" "k"
      Compressed).2.1.st ("t", "k") = some zlib.header ∧
    zlib.header ≠ (zlib.framed.Write (ascii "hello")).1 ++ zlib.framed.Close (ascii "hello") ∧
    s3.Download zlib.framed
      (s3.Upload zlib.framed ⟨s3.echo, fun _ => none⟩ (bytesNewReader (ascii "hello")) "t" "k"
        Compressed).2.1 "t" "k" Compressed = (some [], some ⟨"unexpected EOF"⟩) ∧
    s3.Download zlib.framed
      (s3.Upload zlib.framed ⟨s3.echo, fun _ => none⟩ (bytesNewReader (ascii "hello")) "t" "k"
        Compressed).2.1 "t" "k" Compressed ≠ (some (ascii "hello"), none) := by
  decide

/-- With compression asked for, the result of `S3.Download` does not depend on the error of
the transfer. -/
theorem s3_download_compressed_ignores_error (z : zlib.Codec) (e1 e2 : Error) (buf : Bytes)
    (bucket key : String) (opts : Options) (hc : UseCompression opts = true) :
    s3.Download z ⟨s3.failing e1 buf, ()⟩ bucket key opts
      = s3.Download z ⟨s3.failing e2 buf, ()⟩ bucket key opts := by
  simp [s3.Download, s3.failing, hc]

/-- C3 (the code departs from the claim). A transfer that fails with `RequestCanceled`:
with `Compressed` and an empty buffer `S3.Download` returns the decompression error
`unexpected EOF` instead; with `Compressed` and a buffer that holds a complete stream it
returns the decompressed bytes and a nil error; without compression it returns the
transfer error. -/
theorem s3_download_compressed_drops_transfer_error :
    s3.Download zlib.framed ⟨s3.failing ⟨"RequestCanceled"⟩ [], ()⟩ "b" "k" Compressed
      = (none, some ⟨"unexpected EOF"⟩) ∧
    s3.Download zlib.framed
      ⟨s3.failing ⟨"RequestCanceled"⟩ (zlib.header ++ zlib.frames (ascii "hi")), ()⟩ "b" "k"
      Compressed = (some (ascii "hi"), none) ∧
    s3.Download zlib.framed ⟨s3.failing ⟨"RequestCanceled"⟩ [], ()⟩ "b" "k" 0
      = (some [], some ⟨"RequestCanceled"⟩) := by
  decide

theorem append_slash_inj :
    ∀ (a c b d : List Char), '/' ∉ a → '/' ∉ c → a ++ '/' :: b = c ++ '/' :: d →
      a = c ∧ b = d := by
  intro a
  induction a with
  | nil =>
    intro c b d _ hc h
    cases c with
    | nil => simpa using h
    | cons y c1 =>
      simp only [List.nil_append, List.cons_append, List.cons.injEq] at h
      exact absurd (by rw [← h.1]; simp) hc
  | cons x a1 ih =>
    intro c b d ha hc h
    cases c with
    | nil =>
      simp only [List.nil_append, List.cons_append, List.cons.injEq] at h
      exact absurd (by rw [h.1]; simp) ha
    | cons y c1 =>
      simp only [List.cons_append, List.cons.injEq] at h
      have ha1 : '/' ∉ a1 := fun hm => ha (List.mem_cons_of_mem _ hm)
      have hc1 : '/' ∉ c1 := fun hm => hc (List.mem_cons_of_mem _ hm)
      obtain ⟨h1, h2⟩ := ih c1 b d ha1 hc1 h.2
      exact ⟨by rw [h.1, h1], h2⟩

/-- C4, as stated, fails: the pairs (`a`, `b/c`) and (`a/b`, `c`) differ and have the same
key path, so the second upload replaces the object of the first; the pairs (`a`, `k`) and
(`a`, `./k`) differ, have different key paths, and still address one file, since the file
system normalizes names; and the pairs with an empty key and the buckets `""` and `.`
have key paths that `filepath.Clean` sends to `/` and to `.`, which `normalizePath` both
sends to the root, so they address one entry as well. -/
theorem inmem_addressing_collides :
    (("a", "b/c") : String × String) ≠ ("a/b", "c") ∧
    mem.keyPath "a" "b/c" = mem.keyPath "a/b" "c" ∧
    test.keyPath "a" "b/c" = test.keyPath "a/b" "c" ∧
    mem.Download zlib.framed
      (mem.Upload zlib.framed (mem.Upload zlib.framed mem.New (bytesNewReader (ascii "one"))
        "a" "b/c" 0).2.1 (bytesNewReader (ascii "two")) "a/b" "c" 0).2.1 () "a" "b/c" 0
      = (some (ascii "two"), none) ∧
    test.Download zlib.framed
      (test.Upload zlib.framed (test.Upload zlib.framed test.fresh (bytesNewReader (ascii "one"))
        "a" "b/c" 0).2.1 (bytesNewReader (ascii "two")) "a/b" "c" 0).2.1 "a" "b/c" 0
      = (some (ascii "two"), none) ∧
    mem.keyPath "a" "k" ≠ mem.keyPath "a" "./k" ∧
    mem.Download zlib.framed
      (mem.Upload zlib.framed (mem.Upload zlib.framed mem.New (bytesNewReader (ascii "one"))
        "a" "k" 0).2.1 (bytesNewReader (ascii "two")) "a" "./k" 0).2.1 () "a" "k" 0
      = (some (ascii "two"), none) ∧
    test.Download zlib.framed
      (test.Upload zlib.framed (test.Upload zlib.framed test.fresh (bytesNewReader (ascii "one"))
        "a" "k" 0).2.1 (bytesNewReader (ascii "two")) "a" "./k" 0).2.1 "a" "k" 0
      = (some (ascii "two"), none) ∧
    filepath.Clean (mem.keyPath "" "") ≠ filepath.Clean (mem.keyPath "." "") ∧
    afero.normalizePath (mem.keyPath "" "") = afero.normalizePath (mem.keyPath "." "") ∧
    mem.Download zlib.framed
      (mem.Upload zlib.framed (mem.Upload zlib.framed mem.New (bytesNewReader (ascii "one"))
        "" "" 0).2.1 (bytesNewReader (ascii "two")) "." "" 0).2.1 () "" "" 0
      = (some (ascii "two"), none) ∧
    test.Download zlib.framed
      (test.Upload zlib.framed (test.Upload zlib.framed test.fresh (bytesNewReader (ascii "one"))
        "" "" 0).2.1 (bytesNewReader (ascii "two")) "." "" 0).2.1 "" "" 0
      = (some (ascii "two"), none) := by
  decide

/-- C4, amended. `keyPath` is injective on pairs whose buckets contain no `/` (keys may
contain it): two different such pairs have different key paths.  And whenever
`normalizePath` (that is `filepath.Clean`, with the results `.` and `..` replaced by the
root `/`) gives the key paths of two pairs different names, the pairs address distinct
objects on either in-memory backend: after `B1` is uploaded to the first pair and `B2` to
the second, downloading the first pair still returns `B1`. -/
theorem inmem_addressing_distinct (z : zlib.Codec) (m : afero.MemMapFs) (B1 B2 : Bytes)
    (bucket1 key1 bucket2 key2 : String) :
    ('/' ∉ bucket1.data → '/' ∉ bucket2.data → (bucket1, key1) ≠ (bucket2, key2) →
      mem.keyPath bucket1 key1 ≠ mem.keyPath bucket2 key2 ∧
      test.keyPath bucket1 key1 ≠ test.keyPath bucket2 key2) ∧
    (afero.normalizePath (mem.keyPath bucket1 key1)
        ≠ afero.normalizePath (mem.keyPath bucket2 key2) →
      mem.Download z
        (mem.Upload z (mem.Upload z ⟨afero.memMapFs, m⟩ (bytesNewReader B1) bucket1 key1 0).2.1
          (bytesNewReader B2) bucket2 key2 0).2.1 () bucket1 key1 0 = (some B1, none) ∧
      test.Download z
        (test.Upload z
          (test.Upload z ⟨afero.memMapFs, m⟩ (bytesNewReader B1) bucket1 key1 0).2.1
          (bytesNewReader B2) bucket2 key2 0).2.1 bucket1 key1 0 = (some B1, none)) := by
  have h0 : UseCompression 0 = false := by decide
  refine ⟨?_, ?_⟩
  · intro hb1 hb2 hne
    have hinj : mem.keyPath bucket1 key1 ≠ mem.keyPath bucket2 key2 := by
      intro h
      rw [mem_keyPath_eq, mem_keyPath_eq] at h
      have hd := congrArg String.data h
      simp only [String.data_append] at hd
      rw [List.append_assoc, List.append_assoc] at hd
      obtain ⟨e1, e2⟩ := append_slash_inj _ _ _ _ hb1 hb2 hd
      exact hne (by rw [String.ext e1, String.ext e2])
    exact ⟨hinj, hinj⟩
  · intro hp
    obtain ⟨m1, hu1, hh1, -, -⟩ := mem_Upload_spec z m B1 bucket1 key1 0 (by simp [h0])
    obtain ⟨m2, hu2, -, hf2, -⟩ := mem_Upload_spec z m1 B2 bucket2 key2 0 (by simp [h0])
    obtain ⟨t1, ht1, hg1, -, -⟩ := test_Upload_spec z m B1 bucket1 key1 0 (by simp [h0])
    obtain ⟨t2, ht2, -, hk2, -⟩ := test_Upload_spec z t1 B2 bucket2 key2 0 (by simp [h0])
    have hd := mem_Download_spec z m2 bucket1 key1 0 _ (hf2 _ _ hp hh1)
    have ht := test_Download_spec z t2 bucket1 key1 0 _ (hk2 _ _ hp hg1)
    simp [stored, h0] at hd ht
    refine ⟨?_, ?_⟩
    · rw [hu1]
      show mem.Download z (mem.Upload z ⟨afero.memMapFs, m1⟩ _ _ _ _).2.1 () _ _ _ = _
      rw [hu2]
      exact hd
    · rw [ht1]
      show test.Download z (test.Upload z ⟨afero.memMapFs, t1⟩ _ _ _ _).2.1 _ _ _ = _
      rw [ht2]
      exact ht

/-- Witness of C4, amended: bucket `t` with the keys `a/b.txt` and `a/c.txt` on a new file
system. -/
theorem inmem_addressing_distinct_witness :
    (mem.keyPath "t" "a/b.txt" ≠ mem.keyPath "t" "a/c.txt" ∧
      test.keyPath "t" "a/b.txt" ≠ test.keyPath "t" "a/c.txt") ∧
    (mem.Download zlib.framed
        (mem.Upload zlib.framed (mem.Upload zlib.framed ⟨afero.memMapFs, afero.NewMemMapFs⟩
          (bytesNewReader (ascii "one")) "t" "a/b.txt" 0).2.1
          (bytesNewReader (ascii "two")) "t" "a/c.txt" 0).2.1 () "t" "a/b.txt" 0
        = (some (ascii "one"), none) ∧
      test.Download zlib.framed
        (test.Upload zlib.framed (test.Upload zlib.framed ⟨afero.memMapFs, afero.NewMemMapFs⟩
          (bytesNewReader (ascii "one")) "t" "a/b.txt" 0).2.1
          (bytesNewReader (ascii "two")) "t" "a/c.txt" 0).2.1 "t" "a/b.txt" 0
        = (some (ascii "one"), none)) :=
  ⟨(inmem_addressing_distinct zlib.framed afero.NewMemMapFs (ascii "one") (ascii "two")
      "t" "a/b.txt" "t" "a/c.txt").1 (by decide) (by decide) (by decide),
    (inmem_addressing_distinct zlib.framed afero.NewMemMapFs (ascii "one") (ascii "two")
      "t" "a/b.txt" "t" "a/c.txt").2 (by decide)⟩

/-- C5 (the code departs from the claim). The in-memory backends do not validate, unlike
`S3.Upload`: on a new store, `Upload` of `hi` with an empty bucket and key `k` returns no
error, reads the body and writes the file `/k`; `Upload` with bucket `x` and an empty key
creates the directory `x`. -/
theorem inmem_upload_accepts_empty_names :
    (mem.Upload zlib.framed mem.New (bytesNewReader (ascii "hi")) "" "k" 0).1 = none ∧
    mem.New.st "/k" = none ∧
    (mem.Upload zlib.framed mem.New (bytesNewReader (ascii "hi")) "" "k" 0).2.1.st "/k"
      = some ⟨false, ascii "hi"⟩ ∧
    (mem.Upload zlib.framed mem.New (bytesNewReader (ascii "hi")) "" "k" 0).2.2
      ≠ bytesNewReader (ascii "hi") ∧
    mem.New.st "x" = none ∧
    (mem.Upload zlib.framed mem.New (bytesNewReader (ascii "hi")) "x" "" 0).2.1.st "x" ≠ none ∧
    (test.Upload zlib.framed test.fresh (bytesNewReader (ascii "hi")) "" "k" 0).1 = none ∧
    test.fresh.st "/k" = none ∧
    (test.Upload zlib.framed test.fresh (bytesNewReader (ascii "hi")) "" "k" 0).2.1.st "/k"
      = some ⟨false, ascii "hi"⟩ ∧
    (test.Upload zlib.framed test.fresh (bytesNewReader (ascii "hi")) "" "k" 0).2.2
      ≠ bytesNewReader (ascii "hi") ∧
    test.fresh.st "x" = none ∧
    (test.Upload zlib.framed test.fresh (bytesNewReader (ascii "hi")) "x" "" 0).2.1.st "x"
      ≠ none := by
  decide

/-- Validation on the S3 backend: for every client, service state, body, options and
text `x`, `Upload` with an empty bucket and `Upload` with an empty key both return a
non-nil error, leave the service state as it was (no request is issued) and leave the body
unread. -/
theorem s3_upload_validation {σ : Type} (z : zlib.Codec) (s : s3.S3 σ) (body : Reader)
    (x : String) (opts : Options) :
    s3.Upload z s body "" x opts = (some ⟨"bucket name cannot be empty"⟩, s, body) ∧
    (∃ e : Error, s3.Upload z s body x "" opts = (some e, s, body)) := by
  refine ⟨by simp [s3.Upload], ?_⟩
  by_cases hx : x = ""
  · exact ⟨⟨"bucket name cannot be empty"⟩, by simp [s3.Upload, hx]⟩
  · exact ⟨⟨"key name cannot be empty"⟩, by simp [s3.Upload, hx]⟩

/-- C6, as stated, fails: on a new store, `Download` with an empty bucket and an empty key
reads the root directory and returns an empty byte slice with a nil error; so does
`Download` of (`a`, `..`), whose key path `filepath.Clean` sends to `.` and
`normalizePath` to the root, and with `Compressed` it goes on to decompress; and after one
upload to (`a`, `k`), `Download` of (`a`, `./k`), a key path at which nothing was
uploaded, returns the uploaded bytes. -/
theorem inmem_download_finds_unuploaded :
    mem.Download zlib.framed mem.New () "" "" 0 = (some [], none) ∧
    test.Download zlib.framed test.fresh "" "" 0 = (some [], none) ∧
    mem.keyPath "a" "./k" ≠ mem.keyPath "a" "k" ∧
    mem.Download zlib.framed
      (mem.Upload zlib.framed mem.New (bytesNewReader (ascii "hi")) "a" "k" 0).2.1 ()
      "a" "./k" 0 = (some (ascii "hi"), none) ∧
    test.Download zlib.framed
      (test.Upload zlib.framed test.fresh (bytesNewReader (ascii "hi")) "a" "k" 0).2.1
      "a" "./k" 0 = (some (ascii "hi"), none) ∧
    filepath.Clean (mem.keyPath "a" "..") = "." ∧
    afero.normalizePath (mem.keyPath "a" "..") = "/" ∧
    mem.Download zlib.framed mem.New () "a" ".." 0 = (some [], none) ∧
    test.Download zlib.framed test.fresh "a" ".." 0 = (some [], none) ∧
    mem.Download zlib.framed mem.New () "a" ".." Compressed
      = (none, some ⟨"unexpected EOF"⟩) ∧
    test.Download zlib.framed test.fresh "a" ".." Compressed
      = (none, some ⟨"unexpected EOF"⟩) := by
  decide

/-- C6, amended. On either in-memory backend, for every bucket, key and options, when the
file system has no entry under the normalized key path, `normalizePath` of `keyPath`
(that is `filepath.Clean`, with the results `.` and `..` replaced by the root `/`),
`Download` returns nil data and the `file does not exist` error of `Stat`, whatever the
codec and the options are (nothing is decompressed); on a new store this is the case for
every bucket and key whose normalized key path is not the root `/`. -/
theorem inmem_download_not_found (z : zlib.Codec) (m : afero.MemMapFs) (bucket key : String)
    (opts : Options) :
    (m (afero.normalizePath (mem.keyPath bucket key)) = none →
      mem.Download z ⟨afero.memMapFs, m⟩ () bucket key opts
        = (none, some ⟨"open " ++ afero.normalizePath (mem.keyPath bucket key)
            ++ ": file does not exist"⟩) ∧
      test.Download z ⟨afero.memMapFs, m⟩ bucket key opts
        = (none, some ⟨"open " ++ afero.normalizePath (test.keyPath bucket key)
            ++ ": file does not exist"⟩)) ∧
    (afero.normalizePath (mem.keyPath bucket key) ≠ "/" →
      mem.Download z mem.New () bucket key opts
        = (none, some ⟨"open " ++ afero.normalizePath (mem.keyPath bucket key)
            ++ ": file does not exist"⟩) ∧
      test.Download z test.fresh bucket key opts
        = (none, some ⟨"open " ++ afero.normalizePath (test.keyPath bucket key)
            ++ ": file does not exist"⟩)) := by
  have general : ∀ m1 : afero.MemMapFs, m1 (afero.normalizePath (mem.keyPath bucket key)) = none →
      mem.Download z ⟨afero.memMapFs, m1⟩ () bucket key opts
        = (none, some ⟨"open " ++ afero.normalizePath (mem.keyPath bucket key)
            ++ ": file does not exist"⟩) := by
    intro m1 h
    simp [mem.Download, afero.memMapFs, afero.MemMapFs.Stat, h]
  refine ⟨?_, ?_⟩
  · intro h
    refine ⟨general m h, ?_⟩
    rw [test_Download_eq]
    exact general m h
  · intro h
    have hn : afero.NewMemMapFs (afero.normalizePath (mem.keyPath bucket key)) = none := by
      simp [afero.NewMemMapFs, h]
    refine ⟨general _ hn, ?_⟩
    show test.Download z ⟨afero.memMapFs, afero.NewMemMapFs⟩ bucket key opts = _
    rw [test_Download_eq]
    exact general _ hn

/-- Witness of C6, amended: bucket `bucket` and key `missing-key` on a new store, with
`Compressed`. -/
theorem inmem_download_not_found_witness :
    (mem.Download zlib.framed ⟨afero.memMapFs, afero.NewMemMapFs⟩ () "bucket" "missing-key"
        Compressed
        = (none, some ⟨"open " ++ afero.normalizePath (mem.keyPath "bucket" "missing-key")
            ++ ": file does not exist"⟩) ∧
      test.Download zlib.framed ⟨afero.memMapFs, afero.NewMemMapFs⟩ "bucket" "missing-key"
        Compressed
        = (none, some ⟨"open " ++ afero.normalizePath (test.keyPath "bucket" "missing-key")
            ++ ": file does not exist"⟩)) ∧
    (mem.Download zlib.framed mem.New () "bucket" "missing-key" Compressed
        = (none, some ⟨"open " ++ afero.normalizePath (mem.keyPath "bucket" "missing-key")
            ++ ": file does not exist"⟩) ∧
      test.Download zlib.framed test.fresh "bucket" "missing-key" Compressed
        = (none, some ⟨"open " ++ afero.normalizePath (test.keyPath "bucket" "missing-key")
            ++ ": file does not exist"⟩)) :=
  ⟨(inmem_download_not_found zlib.framed afero.NewMemMapFs "bucket" "missing-key"
      Compressed).1 (by decide),
    (inmem_download_not_found zlib.framed afero.NewMemMapFs "bucket" "missing-key"
      Compressed).2 (by decide)⟩
